import Mathlib

/-!
# Verification of the batch-orchestration core (`useBatchMutation` / `useBatchQuery`)

Shallow embedding of the request-batching core of the repository:

* `chunkArray` — the pure chunker (`src/unnamed/part_003` lines 83–89, identical copy in
  `src/unnamed/part_002` lines 220–226): a `for` loop pushing `array.slice(i, i + size)`
  while advancing `i` by `size`.
* `mutateBatchAsync` — the body of the `mutationFn` built by `useBatchMutation`
  (`src/unnamed/part_003` lines 138–203): chunk, dispatch one promise per batch,
  `Promise.all`, aggregate successes and errors, throw the first error when every
  batch failed.
* the aggregation of `useBatchQuery` (`src/unnamed/part_002` lines 288–329): per-batch
  query states, overall success/error flags, cache-key composition.

Promises are embedded by an outcome assignment `op : Nat → List TV → BatchOutcome TD E`
giving, for the call dispatched at a given batch index with the given batch, the outcome
with which that call eventually settles; `Promise.all` returns its results in promise
(i.e. batch-index) order, which is how the aggregation loop consumes them.  JavaScript
numbers are embedded as `Nat`/`Int` with exact arithmetic; `Math.round` of a non-negative
quotient is `⌊x + 1/2⌋`, embedded on rationals `100·k/n` as `(200*k + n) / (2*n)` in `Nat`
division.
-/

namespace BatchCore

/-- JavaScript `Array.prototype.slice(start, finish)` on a list: negative indices count
from the end, indices are clamped to `[0, length]`, and the elements in `[relStart,
relFinish)` are returned. -/
def sliceJS {T : Type} (arr : List T) (start finish : Int) : List T :=
  let len : Int := arr.length
  let s : Int := if start < 0 then max (len + start) 0 else min start len
  let e : Int := if finish < 0 then max (len + finish) 0 else min finish len
  (arr.drop s.toNat).take (e - s).toNat

/-- The chunker's `for (let i = 0; i < array.length; i += size) chunks.push(array.slice(i, i + size))`
loop, embedded with explicit fuel: one unit of fuel per loop iteration, `none` when the
loop has not finished within the given fuel.  `i` and `size` are `Int`, as in JavaScript,
so a non-positive `size` never advances `i` past the length. -/
def chunkFuel {T : Type} (fuel : Nat) (arr : List T) (size : Int) (i : Int)
    (chunks : List (List T)) : Option (List (List T)) :=
  match fuel with
  | 0 => none
  | fuel + 1 =>
      if i < (arr.length : Int) then
        chunkFuel fuel arr size (i + size) (chunks ++ [sliceJS arr i (i + size)])
      else
        some chunks

/-- One loop iteration of the chunker per unit of fuel: push the next `size` elements
(`array.slice(i, i + size)` viewed from the remaining suffix) and advance by `size`.
The fuel only makes the recursion structural; with positive `size`, any fuel of at
least the list's length computes the full chunking (`chunkGo_fuel_irrel`). -/
def chunkGo {T : Type} (size : Nat) : Nat → List T → List (List T)
  | 0, _ => []
  | _ + 1, [] => []
  | fuel + 1, a :: rest => ((a :: rest).take size) :: chunkGo size fuel ((a :: rest).drop size)

/-- `chunkArray` (`src/unnamed/part_003` lines 83–89): the chunker, one recursive step
per loop iteration — each iteration pushes `array.slice(i, i + size)` (the next `size`
elements) and advances by `size`.  It agrees with the loop model `chunkFuel` for every
positive `size` (`chunkFuel_eq_chunkArray`); for `size = 0` — where the source loop
never terminates, see `chunkFuel_size_nonpos_none` — its value is a totality
artifact. -/
def chunkArray {T : Type} (arr : List T) (size : Nat) : List (List T) :=
  chunkGo size arr.length arr

/-! ## Imperative orchestrator: `useBatchMutation` (`src/unnamed/part_003` lines 129–229)

The per-batch operation together with the environment that decides how each dispatched
promise settles is embedded as `op : Nat → List TV → BatchOutcome TD E`: the call
dispatched for the batch at a given index, with that batch as argument, eventually
settles with the given outcome (`ok` ≙ the promise resolves, `err` ≙ it rejects). -/

/-- How one per-batch promise settles. -/
inductive BatchOutcome (TD E : Type) where
  | ok (data : TD)
  | err (error : E)
deriving DecidableEq

/-- The element type of the `results` array produced by `Promise.all(batchPromises)`:
`{ success: true, data, index }` from the `.then` handler or
`{ success: false, error, index }` from the `.catch` handler. -/
inductive Settled (TD E : Type) where
  | success (data : TD) (index : Nat)
  | failure (error : E) (index : Nat)
deriving DecidableEq

/-- The settled value of the single promise dispatched for the batch at index `i`:
`mutationFn(batch).then((result) => ({success: true, data: result, index}))
.catch((error) => ({success: false, error, index}))`. -/
def settleOne {TV TD E : Type} (op : Nat → List TV → BatchOutcome TD E) (i : Nat)
    (b : List TV) : Settled TD E :=
  match op i b with
  | .ok d => Settled.success d i
  | .err e => Settled.failure e i

/-- `batches.map((batch, index) => mutationFn(batch).then(...).catch(...))` followed by
`Promise.all`: one `Settled` entry per batch, in batch-index (promise) order — this is
the order in which `Promise.all` returns its results, regardless of the wall-clock order
in which the promises settle.  `i` is the index of the first batch of the suffix. -/
def settleFrom {TV TD E : Type} (op : Nat → List TV → BatchOutcome TD E) (i : Nat) :
    List (List TV) → List (Settled TD E)
  | [] => []
  | b :: rest => settleOne op i b :: settleFrom op (i + 1) rest

/-- The full `results` array for an invocation's batches. -/
def settleBatches {TV TD E : Type} (op : Nat → List TV → BatchOutcome TD E)
    (batches : List (List TV)) : List (Settled TD E) :=
  settleFrom op 0 batches

/-- The `successfulResults` array: `results.forEach` pushes `result.data` for every
success, in the order of the `results` array. -/
def successfulResults {TD E : Type} (results : List (Settled TD E)) : List TD :=
  results.filterMap fun r =>
    match r with
    | .success d _ => some d
    | .failure _ _ => none

/-- The `errors` array: `results.forEach` pushes `result.error` for every failure, in
the order of the `results` array. -/
def batchErrors {TD E : Type} (results : List (Settled TD E)) : List E :=
  results.filterMap fun r =>
    match r with
    | .success _ _ => none
    | .failure e _ => some e

/-- `results.filter((r) => r.success).length`. -/
def countSuccess {TD E : Type} (results : List (Settled TD E)) : Nat :=
  (results.filter fun r =>
    match r with
    | .success _ _ => true
    | .failure _ _ => false).length

/-- `BatchMutationResult` (`src/unnamed/part_003` lines 36–56). -/
structure BatchMutationResult (TD E : Type) where
  data : List TD
  totalBatches : Nat
  completedBatches : Nat
  errors : List E
deriving DecidableEq

/-- The body of the mutation built by `useBatchMutation` (`src/unnamed/part_003`
lines 138–203), as observed through `mutateBatchAsync`: chunk `items`, return the empty
result when there are no batches (`batches.length === 0`), otherwise settle every batch,
aggregate, throw the first error (`errors[0]`) when
`successfulResults.length === 0 && errors.length > 0`, and otherwise resolve with the
aggregated result.  `Except.error` ≙ the returned promise rejects.  The source's local
`const`s (`batches`, `results`, `successfulResults`, `errors`) are inlined. -/
def mutateBatchAsync {TV TD E : Type} (op : Nat → List TV → BatchOutcome TD E)
    (batchSize : Nat) (items : List TV) : Except E (BatchMutationResult TD E) :=
  if (chunkArray items batchSize).isEmpty then
    .ok { data := [], totalBatches := 0, completedBatches := 0, errors := [] }
  else if h : (successfulResults (settleBatches op (chunkArray items batchSize))).length = 0
      ∧ 0 < (batchErrors (settleBatches op (chunkArray items batchSize))).length then
    .error ((batchErrors (settleBatches op (chunkArray items batchSize))).get ⟨0, h.2⟩)
  else
    .ok { data := successfulResults (settleBatches op (chunkArray items batchSize)),
          totalBatches := (chunkArray items batchSize).length,
          completedBatches := countSuccess (settleBatches op (chunkArray items batchSize)),
          errors := batchErrors (settleBatches op (chunkArray items batchSize)) }

/-- `Math.round((k / n) * 100)` for `0 ≤ k ≤ n`, embedded exactly on rationals:
`⌊100·k/n + 1/2⌋ = ⌊(200·k + n) / (2·n)⌋`, here in `Nat` division. -/
def jsRound100 (k n : Nat) : Nat := (200 * k + n) / (2 * n)

/-- The sequence of values `setProgress` receives during one invocation in which all `n`
batches settle: `0` from the reset at the start (line 140), then
`Math.round((completedCount / batches.length) * 100)` after the `k`-th settlement
(lines 166 and 172) — the value depends only on the count `completedCount = k`, not on
which batches have settled, so the trace is the same for every settlement order. -/
def progressTrace (n : Nat) : List Nat :=
  0 :: (List.range n).map fun j => jsRound100 (j + 1) n

/-! ## Cached orchestrator: `useBatchQuery` (`src/unnamed/part_002` lines 276–347) -/

/-- The observable state of one batch's `useQuery` unit: pending (neither `isSuccess`
nor `isError`), success with its data, or failure with its error. -/
inductive QueryState (TD E : Type) where
  | pending
  | success (data : TD)
  | failure (error : E)
deriving DecidableEq

/-- `query.isSuccess`. -/
def qIsSuccess {TD E : Type} : QueryState TD E → Bool
  | .success _ => true
  | _ => false

/-- `query.isError`. -/
def qIsError {TD E : Type} : QueryState TD E → Bool
  | .failure _ => true
  | _ => false

/-- `query.error` (present exactly on an errored query). -/
def qError {TD E : Type} : QueryState TD E → Option E
  | .failure e => some e
  | _ => none

/-- `query.data` (present exactly on a successful query). -/
def qData {TD E : Type} : QueryState TD E → Option TD
  | .success d => some d
  | _ => none

/-- `isSuccess: queries.every((q) => q.isSuccess)` (`src/unnamed/part_002` line 325). -/
def aggIsSuccess {TD E : Type} (queries : List (QueryState TD E)) : Bool :=
  queries.all qIsSuccess

/-- `error: queries.find((q) => q.isError)?.error || null` (`src/unnamed/part_002`
line 327). -/
def aggError {TD E : Type} (queries : List (QueryState TD E)) : Option E :=
  (queries.find? qIsError).bind qError

/-- The `forEach` branch guard `query.isSuccess && query.data` (`src/unnamed/part_002`
line 303): the datum of a successful query is pushed only when it is also *truthy* in
the JavaScript sense.  `TData` is an opaque caller type, so its truthiness is embedded
as a caller-determined predicate `truthy : TD → Bool` (e.g. for `TData = number`, `0`
is falsy). -/
def qTruthyData {TD E : Type} (truthy : TD → Bool) : QueryState TD E → Option TD
  | .success d => if truthy d then some d else none
  | _ => none

/-- The aggregated `data` object of `useBatchQuery` (`src/unnamed/part_002` lines
297–321): the `queries.forEach` loop pushes `query.data` for every query satisfying
`query.isSuccess && query.data` (truthiness guard on the datum, `qTruthyData`) and
`query.error` for every query satisfying `query.isError && query.error` (the error
guard always passes: the code types errors as always-truthy `Error` objects —
`errors: Error[]`, `query.error as Error`), in query (= batch-index) order;
`totalBatches = batches.length` equals `queries.length` since `useQueries` builds one
query per batch; `completedBatches = queries.filter((q) => q.isSuccess).length`
(line 319) counts successful queries with no truthiness guard. -/
def aggQueryData {TD E : Type} (truthy : TD → Bool) (queries : List (QueryState TD E)) :
    BatchMutationResult TD E :=
  { data := queries.filterMap (qTruthyData truthy)
    totalBatches := queries.length
    completedBatches := (queries.filter qIsSuccess).length
    errors := queries.filterMap qError }

/-- `completedCount` of the cached aggregation (`src/unnamed/part_002` lines 300–309):
incremented in the two guarded `forEach` branches, i.e. for queries satisfying
`query.isSuccess && query.data` or `query.isError && query.error` (the latter guard
always passes, see `aggQueryData`). -/
def aggCompletedCount {TD E : Type} (truthy : TD → Bool)
    (queries : List (QueryState TD E)) : Nat :=
  (queries.filter fun q =>
    match q with
    | .success d => truthy d
    | .failure _ => true
    | .pending => false).length

/-- One element of a react-query cache key (`unknown[]`): the key arrays built by
`useBatchQuery` mix strings (the base key and the literal `'batch'`), numbers (the batch
index) and item arrays (the batch contents); react-query compares keys by value. -/
inductive KeyAtom (TV : Type) where
  | str (s : String)
  | num (n : Nat)
  | items (xs : List TV)
deriving DecidableEq

/-- `queryKey: [...queryKey, 'batch', index, batch]` (`src/unnamed/part_002` line 290). -/
def batchKey {TV : Type} (baseKey : List (KeyAtom TV)) (index : Nat) (batch : List TV) :
    List (KeyAtom TV) :=
  baseKey ++ [KeyAtom.str "batch", KeyAtom.num index, KeyAtom.items batch]

/-! ## Test fixtures for witnesses and counterexamples -/

/-- Outcome assignment of the concrete partial-failure scenario: three batches, the
batch at index 1 rejects, the others resolve (with their index as data). -/
def opOneFails : Nat → List Nat → BatchOutcome Nat String := fun i _ =>
  if i = 1 then .err "batch 1 failed" else .ok i

/-- Outcome assignment in which every batch rejects, with its index as the error. -/
def opAllFail : Nat → List Nat → BatchOutcome Nat Nat := fun i _ => .err i

/-- JavaScript truthiness of a number datum (`TData = number`): `0` is falsy, every
other natural number truthy. -/
def jsNumTruthy : Nat → Bool := fun n => n != 0

theorem chunkGo_nil {T : Type} (size fuel : Nat) : chunkGo size fuel ([] : List T) = [] := by
  cases fuel <;> rfl

/-- With positive `size`, `chunkGo` consumes at least one element per unit of fuel, so
any two sufficient fuels compute the same chunking. -/
theorem chunkGo_fuel_irrel {T : Type} (size : Nat) (hs : 0 < size) :
    ∀ (fuel fuel' : Nat) (l : List T), l.length ≤ fuel → l.length ≤ fuel' →
      chunkGo size fuel l = chunkGo size fuel' l := by
  intro fuel
  induction fuel with
  | zero =>
      intro fuel' l h _
      have : l = [] := List.eq_nil_of_length_eq_zero (Nat.le_zero.mp h)
      subst this
      rw [chunkGo_nil, chunkGo_nil]
  | succ fuel ih =>
      intro fuel' l h h'
      cases l with
      | nil => rw [chunkGo_nil, chunkGo_nil]
      | cons a rest =>
          cases fuel' with
          | zero => simp at h'
          | succ fuel' =>
              rw [chunkGo, chunkGo]
              rw [ih fuel' ((a :: rest).drop size)
                (by simp only [List.length_drop, List.length_cons] at h ⊢; omega)
                (by simp only [List.length_drop, List.length_cons] at h' ⊢; omega)]

theorem chunkArray_nil {T : Type} (size : Nat) : chunkArray ([] : List T) size = [] := rfl

theorem chunkArray_cons {T : Type} (arr : List T) (size : Nat) (ha : arr ≠ []) (hs : size ≠ 0) :
    chunkArray arr size = arr.take size :: chunkArray (arr.drop size) size := by
  cases arr with
  | nil => exact absurd rfl ha
  | cons a rest =>
      rw [chunkArray, chunkArray, List.length_cons, chunkGo]
      rw [chunkGo_fuel_irrel size (Nat.pos_of_ne_zero hs) rest.length
        ((a :: rest).drop size).length ((a :: rest).drop size) (by simp; omega) (le_refl _)]

/-- Concatenating the chunks in order reconstructs the input exactly. -/
theorem chunkArray_join {T : Type} (arr : List T) (size : Nat) (hs : 0 < size) :
    (chunkArray arr size).flatten = arr := by
  have main : ∀ (n : Nat) (l : List T), l.length ≤ n → (chunkArray l size).flatten = l := by
    intro n
    induction n with
    | zero =>
        intro l h
        have : l = [] := List.eq_nil_of_length_eq_zero (Nat.le_zero.mp h)
        subst this
        simp [chunkArray_nil]
    | succ n ih =>
        intro l h
        cases l with
        | nil => simp [chunkArray_nil]
        | cons a rest =>
            rw [chunkArray_cons (a :: rest) size (by simp) (Nat.pos_iff_ne_zero.mp hs),
              List.flatten_cons, ih ((a :: rest).drop size) (by simp at h ⊢; omega)]
            exact List.take_append_drop size (a :: rest)
  exact main arr.length arr (Nat.le_refl _)

/-- The number of chunks is `⌈n / size⌉`, computed as `(n + size - 1) / size`. -/
theorem chunkArray_length {T : Type} (arr : List T) (size : Nat) (hs : 0 < size) :
    (chunkArray arr size).length = (arr.length + size - 1) / size := by
  have main : ∀ (n : Nat) (l : List T), l.length ≤ n →
      (chunkArray l size).length = (l.length + size - 1) / size := by
    intro n
    induction n with
    | zero =>
        intro l h
        have : l = [] := List.eq_nil_of_length_eq_zero (Nat.le_zero.mp h)
        subst this
        have h0 : (size - 1) / size = 0 := Nat.div_eq_of_lt (by omega)
        simp [chunkArray_nil, h0]
    | succ n ih =>
        intro l h
        cases l with
        | nil =>
            have h0 : (size - 1) / size = 0 := Nat.div_eq_of_lt (by omega)
            simp [chunkArray_nil, h0]
        | cons a rest =>
            rw [chunkArray_cons (a :: rest) size (by simp) (Nat.pos_iff_ne_zero.mp hs),
              List.length_cons, ih ((a :: rest).drop size) (by simp at h ⊢; omega),
              List.length_drop]
            have hlen : 0 < (a :: rest).length := by simp
            set m := (a :: rest).length with hm
            rcases le_or_lt m size with hle | hlt
            · have h1 : m - size = 0 := Nat.sub_eq_zero_of_le hle
              have h2 : (0 + size - 1) / size = 0 := Nat.div_eq_of_lt (by omega)
              have h3 : (m + size - 1) / size = 1 :=
                Nat.div_eq_of_lt_le (by omega) (by omega)
              rw [h1, h2, h3]
            · have h1 : m - size + size - 1 = m - 1 := by omega
              have h2 : m + size - 1 = (m - 1) + size := by omega
              rw [h1, h2, Nat.add_div_right _ hs]
  exact main arr.length arr (Nat.le_refl _)

theorem chunkArray_eq_nil_iff {T : Type} (arr : List T) (size : Nat) (hs : 0 < size) :
    chunkArray arr size = [] ↔ arr = [] := by
  constructor
  · intro h
    cases arr with
    | nil => rfl
    | cons a rest =>
        rw [chunkArray_cons (a :: rest) size (by simp) (by omega)] at h
        exact absurd h (by simp)
  · intro h
    subst h
    exact chunkArray_nil size

/-- Every chunk except possibly the last has length exactly `size`. -/
theorem chunkArray_dropLast_length {T : Type} (arr : List T) (size : Nat) (hs : 0 < size) :
    ∀ c ∈ (chunkArray arr size).dropLast, c.length = size := by
  have main : ∀ (n : Nat) (l : List T), l.length ≤ n →
      ∀ c ∈ (chunkArray l size).dropLast, c.length = size := by
    intro n
    induction n with
    | zero =>
        intro l h
        have : l = [] := List.eq_nil_of_length_eq_zero (Nat.le_zero.mp h)
        subst this
        simp [chunkArray_nil]
    | succ n ih =>
        intro l h c hc
        cases l with
        | nil => simp [chunkArray_nil] at hc
        | cons a rest =>
            rw [chunkArray_cons (a :: rest) size (by simp) (by omega)] at hc
            by_cases hrec : chunkArray ((a :: rest).drop size) size = []
            · rw [hrec] at hc
              simp at hc
            · rw [List.dropLast_cons_of_ne_nil hrec] at hc
              rcases List.mem_cons.mp hc with hc | hc
              · subst hc
                have hlen : size ≤ (a :: rest).length := by
                  by_contra hgt
                  push_neg at hgt
                  have : (a :: rest).drop size = [] :=
                    List.drop_eq_nil_of_le (Nat.le_of_lt hgt)
                  rw [this, chunkArray_nil] at hrec
                  exact hrec rfl
                rw [List.length_take]
                simp only [List.length_cons] at hlen ⊢
                omega
              · exact ih ((a :: rest).drop size) (by simp at h ⊢; omega) c hc
  exact main arr.length arr (Nat.le_refl _)

/-- The last chunk has length `n mod size`, or `size` when `size` divides `n`. -/
theorem chunkArray_getLast_length {T : Type} (arr : List T) (size : Nat) (hs : 0 < size) :
    ∀ c, (chunkArray arr size).getLast? = some c →
      c.length = (if arr.length % size = 0 then size else arr.length % size) := by
  have main : ∀ (n : Nat) (l : List T), l.length ≤ n → l ≠ [] →
      ∀ c, (chunkArray l size).getLast? = some c →
        c.length = (if l.length % size = 0 then size else l.length % size) := by
    intro n
    induction n with
    | zero =>
        intro l h hne
        exact absurd (List.eq_nil_of_length_eq_zero (Nat.le_zero.mp h)) hne
    | succ n ih =>
        intro l h hne c hc
        cases l with
        | nil => exact absurd rfl hne
        | cons a rest =>
            rw [chunkArray_cons (a :: rest) size (by simp) (by omega)] at hc
            set m := (a :: rest).length with hm
            have hm1 : 1 ≤ m := by simp [hm]
            by_cases hrec : chunkArray ((a :: rest).drop size) size = []
            · rw [hrec, List.getLast?_singleton] at hc
              have hdrop : (a :: rest).drop size = [] :=
                (chunkArray_eq_nil_iff _ size hs).mp hrec
              have hle : m ≤ size := by
                have := List.drop_eq_nil_iff.mp hdrop
                omega
              have hc' : c = (a :: rest).take size := (Option.some_inj.mp hc).symm
              subst hc'
              rw [List.length_take, Nat.min_eq_right hle]
              rcases Nat.lt_or_ge m size with hlt | hge
              · rw [if_neg (by rw [Nat.mod_eq_of_lt hlt]; omega), Nat.mod_eq_of_lt hlt]
              · have : m = size := Nat.le_antisymm hle hge
                rw [this, if_pos (Nat.mod_self size)]
            · obtain ⟨c', cs, hcc⟩ := List.exists_cons_of_ne_nil hrec
              rw [hcc, List.getLast?_cons_cons, ← hcc] at hc
              have hdrop_ne : (a :: rest).drop size ≠ [] := by
                intro hdrop
                rw [hdrop, chunkArray_nil] at hrec
                exact hrec rfl
              have hsize_lt : size < m := by
                by_contra hgt
                push_neg at hgt
                exact hdrop_ne (List.drop_eq_nil_of_le hgt)
              have := ih ((a :: rest).drop size)
                (by
                  simp only [hm, List.length_cons] at h
                  simp only [List.length_drop, List.length_cons]
                  omega)
                hdrop_ne c hc
              rw [List.length_drop] at this
              have hmod : (m - size) % size = m % size := by
                have hrepr : m = (m - size) + size := by omega
                conv_rhs => rw [hrepr]
                rw [Nat.add_mod_right]
              rw [hmod] at this
              exact this
  intro c hc
  have hne : arr ≠ [] := by
    intro h
    subst h
    rw [chunkArray_nil] at hc
    exact absurd hc (by simp)
  exact main arr.length arr (Nat.le_refl _) hne c hc

theorem sliceJS_nat {T : Type} (arr : List T) (i size : Nat) (hi : i ≤ arr.length) :
    sliceJS arr (i : Int) ((i : Int) + (size : Int)) = (arr.drop i).take size := by
  unfold sliceJS
  have h1 : ¬ ((i : Int) < 0) := by omega
  have h2 : ¬ ((i : Int) + (size : Int) < 0) := by omega
  simp only [if_neg h1, if_neg h2]
  have hs : min (i : Int) (arr.length : Int) = (i : Int) := by omega
  rw [hs]
  have he : (min ((i : Int) + (size : Int)) (arr.length : Int) - (i : Int)).toNat
      = min size (arr.length - i) := by omega
  rw [he, Int.toNat_natCast]
  rw [List.take_eq_take]
  simp only [List.length_drop]
  omega

/-- The loop model agrees with the structural chunker: with positive `size` and enough
fuel, the loop starting at index `i` with accumulator `acc` finishes with `acc` followed
by the chunks of the remaining suffix. -/
theorem chunkFuel_spec {T : Type} (size : Nat) (hs : 0 < size) :
    ∀ (fuel : Nat) (arr : List T) (i : Nat) (acc : List (List T)),
      arr.length - i < fuel →
      chunkFuel fuel arr (size : Int) (i : Int) acc
        = some (acc ++ chunkArray (arr.drop i) size) := by
  intro fuel
  induction fuel with
  | zero => intro arr i acc h; omega
  | succ fuel ih =>
      intro arr i acc h
      rw [chunkFuel]
      by_cases hlt : (i : Int) < (arr.length : Int)
      · rw [if_pos hlt]
        have hi : i < arr.length := by omega
        have hcast : (i : Int) + (size : Int) = ((i + size : Nat) : Int) := by push_cast; ring
        rw [sliceJS_nat arr i size (Nat.le_of_lt hi), hcast,
          ih arr (i + size) (acc ++ [(arr.drop i).take size]) (by omega)]
        have hdrop : arr.drop (i + size) = (arr.drop i).drop size := by
          rw [List.drop_drop, Nat.add_comm]
        rw [hdrop]
        have hne : arr.drop i ≠ [] := by
          intro hd
          have := List.drop_eq_nil_iff.mp hd
          omega
        rw [chunkArray_cons (arr.drop i) size hne (by omega)]
        simp
      · rw [if_neg hlt]
        have : arr.drop i = [] := List.drop_eq_nil_of_le (by omega)
        rw [this, chunkArray_nil]
        simp

/-- With positive `size`, fuel `length + 1` completes the loop: the source loop computes
exactly `chunkArray`. -/
theorem chunkFuel_eq_chunkArray {T : Type} (arr : List T) (size : Nat) (hs : 0 < size) :
    chunkFuel (arr.length + 1) arr (size : Int) 0 [] = some (chunkArray arr size) := by
  have := chunkFuel_spec size hs (arr.length + 1) arr 0 [] (by omega)
  simpa using this

/-- With a non-positive `size` and a non-empty array, the chunker's loop never finishes:
the loop index never advances past the length, so every amount of fuel is exhausted. -/
theorem chunkFuel_size_nonpos_none {T : Type} (size : Int) (hsize : size ≤ 0) :
    ∀ (fuel : Nat) (arr : List T) (i : Int) (acc : List (List T)),
      arr ≠ [] → i ≤ 0 → chunkFuel fuel arr size i acc = none := by
  intro fuel
  induction fuel with
  | zero => intro arr i acc _ _; rfl
  | succ fuel ih =>
      intro arr i acc hne hi
      rw [chunkFuel]
      have hlen : 0 < arr.length := List.length_pos.mpr hne
      have hlt : i < (arr.length : Int) := by
        have : (0 : Int) < (arr.length : Int) := by exact_mod_cast hlen
        omega
      rw [if_pos hlt]
      exact ih arr (i + size) _ hne (by omega)

/-! ## Helper lemmas -/

theorem settleFrom_length {TV TD E : Type} (op : Nat → List TV → BatchOutcome TD E) :
    ∀ (bs : List (List TV)) (i : Nat), (settleFrom op i bs).length = bs.length := by
  intro bs
  induction bs with
  | nil => intro i; rfl
  | cons b rest ih =>
      intro i
      rw [settleFrom, List.length_cons, List.length_cons, ih]

theorem countSuccess_eq_length {TD E : Type} (rs : List (Settled TD E)) :
    countSuccess rs = (successfulResults rs).length := by
  induction rs with
  | nil => rfl
  | cons r rest ih =>
      cases r with
      | success d i => simp [countSuccess, successfulResults, List.filter, List.filterMap] at ih ⊢; omega
      | failure e i => simp [countSuccess, successfulResults, List.filter, List.filterMap] at ih ⊢; omega

theorem successes_add_errors {TD E : Type} (rs : List (Settled TD E)) :
    (successfulResults rs).length + (batchErrors rs).length = rs.length := by
  induction rs with
  | nil => rfl
  | cons r rest ih =>
      cases r with
      | success d i =>
          simp [successfulResults, batchErrors, List.filterMap] at ih ⊢
          omega
      | failure e i =>
          simp [successfulResults, batchErrors, List.filterMap] at ih ⊢
          omega

/-- Inversion of `mutateBatchAsync` on a resolved invocation: either there were no
batches and the result is the empty aggregate, or the result is the aggregate of the
settled batches. -/
theorem mutateBatchAsync_ok_inv {TV TD E : Type} (op : Nat → List TV → BatchOutcome TD E)
    (batchSize : Nat) (items : List TV) (r : BatchMutationResult TD E)
    (h : mutateBatchAsync op batchSize items = .ok r) :
    (chunkArray items batchSize = [] ∧
      r = { data := [], totalBatches := 0, completedBatches := 0, errors := [] }) ∨
    (chunkArray items batchSize ≠ [] ∧
      r = { data := successfulResults (settleBatches op (chunkArray items batchSize)),
            totalBatches := (chunkArray items batchSize).length,
            completedBatches := countSuccess (settleBatches op (chunkArray items batchSize)),
            errors := batchErrors (settleBatches op (chunkArray items batchSize)) }) := by
  unfold mutateBatchAsync at h
  by_cases hb : (chunkArray items batchSize).isEmpty
  · left
    rw [if_pos hb] at h
    rw [Except.ok.injEq] at h
    exact ⟨List.isEmpty_iff.mp hb, h.symm⟩
  · right
    rw [if_neg hb] at h
    refine ⟨fun hnil => hb (by rw [hnil]; rfl), ?_⟩
    by_cases hc : (successfulResults (settleBatches op (chunkArray items batchSize))).length = 0
        ∧ 0 < (batchErrors (settleBatches op (chunkArray items batchSize))).length
    · rw [dif_pos hc] at h
      exact absurd h (by simp)
    · rw [dif_neg hc] at h
      rw [Except.ok.injEq] at h
      exact h.symm

/-- Projecting the `Promise.all` results of a batch suffix enumerates the batches by
increasing index. -/
theorem filterMap_settleFrom {TV TD E X : Type} (op : Nat → List TV → BatchOutcome TD E)
    (proj : Settled TD E → Option X) :
    ∀ (bs : List (List TV)) (i : Nat),
      (settleFrom op i bs).filterMap proj
        = (List.range bs.length).filterMap fun j => proj (settleOne op (i + j) (bs.getD j [])) := by
  intro bs
  induction bs with
  | nil => intro i; rfl
  | cons b rest ih =>
      intro i
      rw [settleFrom, List.filterMap_cons, List.length_cons, List.range_succ_eq_map,
        List.filterMap_cons, List.filterMap_map]
      have harg : (fun j => proj (settleOne op (i + j) ((b :: rest).getD j []))) ∘ Nat.succ
          = fun j => proj (settleOne op ((i + 1) + j) (rest.getD j [])) := by
        funext j
        have hidx : i + (j + 1) = (i + 1) + j := by omega
        simp [Function.comp, Nat.succ_eq_add_one, hidx]
      rw [harg, ← ih (i + 1)]
      simp

/-- The settlement array depends only on the outcome each batch's own call settles
with. -/
theorem settleFrom_congr {TV TD E : Type} (op op' : Nat → List TV → BatchOutcome TD E) :
    ∀ (bs : List (List TV)) (i : Nat),
      (∀ j, j < bs.length → op' (i + j) (bs.getD j []) = op (i + j) (bs.getD j [])) →
      settleFrom op' i bs = settleFrom op i bs := by
  intro bs
  induction bs with
  | nil => intro i _; rfl
  | cons b rest ih =>
      intro i hagree
      rw [settleFrom, settleFrom]
      have h0 := hagree 0 (by simp)
      simp only [Nat.add_zero, List.getD_cons_zero] at h0
      rw [show settleOne op' i b = settleOne op i b by rw [settleOne, settleOne, h0],
        ih (i + 1) (fun j hj => by
          have := hagree (j + 1) (by simp; omega)
          simpa [Nat.add_comm, Nat.add_assoc, Nat.add_left_comm] using this)]

/-- `find?`-based first-error extraction: the error surfaced is the first errored
query's error, in query order. -/
theorem aggError_first {TD E : Type} :
    ∀ (qs : List (QueryState TD E)) (i : Nat) (h : i < qs.length) (e : E),
      qs.get ⟨i, h⟩ = QueryState.failure e →
      (∀ j (hj : j < qs.length), j < i → qIsError (qs.get ⟨j, hj⟩) = false) →
      aggError qs = some e := by
  intro qs
  induction qs with
  | nil => intro i h; simp at h
  | cons q rest ih =>
      intro i h e hget hfirst
      cases i with
      | zero =>
          simp only [List.get] at hget
          subst hget
          rw [aggError, List.find?_cons_of_pos _ (by rfl)]
          rfl
      | succ i =>
          have hq : qIsError q = false := hfirst 0 (by simp) (by omega)
          have hqpos : ¬ (qIsError q = true) := by rw [hq]; simp
          rw [aggError, List.find?_cons_of_neg _ hqpos]
          have := ih i (by simpa using Nat.lt_of_succ_lt_succ h) e (by simpa using hget)
            (fun j hj hji => by
              have := hfirst (j + 1) (by simpa using Nat.succ_lt_succ hj) (by omega)
              simpa using this)
          rw [aggError] at this
          exact this

/-- The truthiness guard on `data` can only drop entries: the `data` sequence is never
longer than the count of successful queries. -/
theorem guarded_data_length_le {TD E : Type} (truthy : TD → Bool)
    (qs : List (QueryState TD E)) :
    (qs.filterMap (qTruthyData truthy)).length ≤ (qs.filter qIsSuccess).length := by
  induction qs with
  | nil => exact le_refl 0
  | cons q rest ih =>
      cases q with
      | pending =>
          simpa [qTruthyData, qIsSuccess, List.filterMap_cons, List.filter] using ih
      | failure e =>
          simpa [qTruthyData, qIsSuccess, List.filterMap_cons, List.filter] using ih
      | success d =>
          by_cases ht : truthy d = true
          · have hred : qTruthyData truthy (QueryState.success d : QueryState TD E) = some d := by
              simp [qTruthyData, ht]
            simp [hred, qIsSuccess, List.filterMap_cons, List.filter]
            omega
          · rw [Bool.not_eq_true] at ht
            have hred : qTruthyData truthy (QueryState.success d : QueryState TD E) = none := by
              simp [qTruthyData, ht]
            simp [hred, qIsSuccess, List.filterMap_cons, List.filter]
            omega

/-- The `filter isSuccess` count agrees with the length of the truthiness-guarded
`data` sequence exactly when every successful query's datum is truthy. -/
theorem success_count_eq_guarded_iff {TD E : Type} (truthy : TD → Bool) :
    ∀ (qs : List (QueryState TD E)),
      ((qs.filter qIsSuccess).length = (qs.filterMap (qTruthyData truthy)).length ↔
        ∀ d, QueryState.success d ∈ qs → truthy d = true)
  | [] => by simp
  | q :: rest => by
      have ih := success_count_eq_guarded_iff truthy rest
      have hle := guarded_data_length_le truthy rest
      cases q with
      | pending =>
          simp only [List.filter, List.filterMap_cons, qIsSuccess, qTruthyData]
          rw [ih]
          constructor
          · intro h d hd
            rcases List.mem_cons.mp hd with hd | hd
            · exact absurd hd (by simp)
            · exact h d hd
          · intro h d hd
            exact h d (List.mem_cons_of_mem _ hd)
      | failure e =>
          simp only [List.filter, List.filterMap_cons, qIsSuccess, qTruthyData]
          rw [ih]
          constructor
          · intro h d hd
            rcases List.mem_cons.mp hd with hd | hd
            · exact absurd hd (by simp)
            · exact h d hd
          · intro h d hd
            exact h d (List.mem_cons_of_mem _ hd)
      | success d =>
          by_cases ht : truthy d = true
          · have hred : qTruthyData truthy (QueryState.success d : QueryState TD E) = some d := by
              simp [qTruthyData, ht]
            simp only [List.filter, List.filterMap_cons, qIsSuccess, hred,
              List.length_cons, Nat.add_right_cancel_iff]
            rw [ih]
            constructor
            · intro h d' hd'
              rcases List.mem_cons.mp hd' with hd' | hd'
              · obtain rfl : d' = d := by
                  injection hd'
                exact ht
              · exact h d' hd'
            · intro h d' hd'
              exact h d' (List.mem_cons_of_mem _ hd')
          · rw [Bool.not_eq_true] at ht
            have hred : qTruthyData truthy (QueryState.success d : QueryState TD E) = none := by
              simp [qTruthyData, ht]
            simp only [List.filter, List.filterMap_cons, qIsSuccess, hred,
              List.length_cons]
            constructor
            · intro h
              omega
            · intro h
              have := h d (List.mem_cons_self _ _)
              rw [this] at ht
              exact absurd ht (by simp)

/-! ## Progress arithmetic -/

theorem jsRound100_le_100 (k n : Nat) (hn : 0 < n) (hk : k ≤ n) : jsRound100 k n ≤ 100 := by
  rw [jsRound100]
  have : (200 * k + n) / (2 * n) < 101 := by
    rw [Nat.div_lt_iff_lt_mul (by omega)]
    omega
  omega

theorem jsRound100_mono (k k' n : Nat) (hkk : k' ≤ k) : jsRound100 k' n ≤ jsRound100 k n :=
  Nat.div_le_div_right (by omega)

theorem jsRound100_eq_100_iff (k n : Nat) (hn : 0 < n) (hk : k ≤ n) :
    jsRound100 k n = 100 ↔ 199 * n ≤ 200 * k := by
  constructor
  · intro h
    have h100 : 100 ≤ (200 * k + n) / (2 * n) := by rw [← jsRound100, h]
    rw [Nat.le_div_iff_mul_le (by omega)] at h100
    omega
  · intro h
    have hle := jsRound100_le_100 k n hn hk
    have h100 : 100 ≤ (200 * k + n) / (2 * n) := by
      rw [Nat.le_div_iff_mul_le (by omega)]
      omega
    rw [jsRound100] at hle ⊢
    omega

/-- The `successfulResults` array enumerates the successful batches by increasing batch
index. -/
theorem successfulResults_by_index {TV TD E : Type} (op : Nat → List TV → BatchOutcome TD E)
    (bs : List (List TV)) :
    successfulResults (settleBatches op bs)
      = (List.range bs.length).filterMap fun j =>
          match op j (bs.getD j []) with
          | BatchOutcome.ok d => some d
          | BatchOutcome.err _ => none := by
  have h := filterMap_settleFrom op
    (fun r => match r with | Settled.success d _ => some d | Settled.failure _ _ => none)
    bs 0
  refine h.trans (List.filterMap_congr ?_)
  intro j _
  rw [Nat.zero_add, settleOne]
  cases op j (bs.getD j []) <;> rfl

/-- The `errors` array enumerates the failed batches by increasing batch index. -/
theorem batchErrors_by_index {TV TD E : Type} (op : Nat → List TV → BatchOutcome TD E)
    (bs : List (List TV)) :
    batchErrors (settleBatches op bs)
      = (List.range bs.length).filterMap fun j =>
          match op j (bs.getD j []) with
          | BatchOutcome.ok _ => none
          | BatchOutcome.err e => some e := by
  have h := filterMap_settleFrom op
    (fun r => match r with | Settled.success _ _ => none | Settled.failure e _ => some e)
    bs 0
  refine h.trans (List.filterMap_congr ?_)
  intro j _
  rw [Nat.zero_add, settleOne]
  cases op j (bs.getD j []) <;> rfl

/-! ## Claims -/

/-- C1: for every sequence `items` of length `n` and positive `size`, the chunker is
deterministic (a pure function of its arguments), returns `[]` on empty input and
otherwise `⌈n/size⌉ = (n + size - 1)/size` batches, each of length `size` except
possibly the last, whose length is `n mod size` (or `size` when `size` divides `n`),
and concatenating the batches in index order reconstructs the input exactly. -/
theorem chunkArray_spec {T : Type} (items : List T) (size : Nat) (hs : 0 < size) :
    (items = [] → chunkArray items size = []) ∧
    (chunkArray items size).length = (items.length + size - 1) / size ∧
    (∀ c ∈ (chunkArray items size).dropLast, c.length = size) ∧
    (∀ c, (chunkArray items size).getLast? = some c →
      c.length = if items.length % size = 0 then size else items.length % size) ∧
    (chunkArray items size).flatten = items :=
  ⟨fun h => h ▸ chunkArray_nil size,
   chunkArray_length items size hs,
   chunkArray_dropLast_length items size hs,
   chunkArray_getLast_length items size hs,
   chunkArray_join items size hs⟩

/-- Witness for C1 at `items = [1,2,3,4,5]`, `size = 2` (3 batches `[1,2],[3,4],[5]`). -/
theorem chunkArray_spec_witness :
    (([1, 2, 3, 4, 5] : List Nat) = [] → chunkArray ([1, 2, 3, 4, 5] : List Nat) 2 = []) ∧
    (chunkArray ([1, 2, 3, 4, 5] : List Nat) 2).length
      = (([1, 2, 3, 4, 5] : List Nat).length + 2 - 1) / 2 ∧
    (∀ c ∈ (chunkArray ([1, 2, 3, 4, 5] : List Nat) 2).dropLast, c.length = 2) ∧
    (∀ c, (chunkArray ([1, 2, 3, 4, 5] : List Nat) 2).getLast? = some c →
      c.length = if ([1, 2, 3, 4, 5] : List Nat).length % 2 = 0 then 2
        else ([1, 2, 3, 4, 5] : List Nat).length % 2) ∧
    (chunkArray ([1, 2, 3, 4, 5] : List Nat) 2).flatten = [1, 2, 3, 4, 5] :=
  chunkArray_spec [1, 2, 3, 4, 5] 2 (by norm_num)

/-- C5, counterexample: the chunker neither fails with a configuration error nor clamps
a non-positive size to 1.  There is no validation in `chunkArray` (its only control flow
is the loop), and on `size = 0` with one item the loop is still running after 20
iterations, whereas the clamped-to-1 loop finishes in one iteration; by
`chunker_no_validation_amended` no amount of fuel ever finishes. -/
theorem chunk_nonpositive_size_counterexample :
    chunkFuel 20 ([0] : List Nat) (0 : Int) 0 [] = none ∧
    chunkFuel 20 ([0] : List Nat) (1 : Int) 0 [] = some [[0]] := by
  constructor <;> decide

/-- C5, amended: neither the chunker nor the orchestrators validate the batch size.
With a non-positive `size` and non-empty `items` no InvalidConfiguration error is raised
and no clamping occurs: the chunker's loop simply never terminates (every amount of fuel
is exhausted), so the orchestrators hang synchronously inside the chunker before any
per-batch operation is dispatched. -/
theorem chunker_no_validation_amended {T : Type} (size : Int) (arr : List T)
    (hsize : size ≤ 0) (hne : arr ≠ []) :
    ∀ (fuel : Nat), chunkFuel fuel arr size 0 [] = none :=
  fun fuel => chunkFuel_size_nonpos_none size hsize fuel arr 0 [] hne (le_refl 0)

/-- Witness for C5's amended claim at `size = -7`, `arr = [3]`, `fuel = 5`. -/
theorem chunker_no_validation_amended_witness :
    chunkFuel 5 ([3] : List Nat) (-7 : Int) 0 [] = none :=
  chunker_no_validation_amended (-7) [3] (by norm_num) (by simp) 5

/-- C6: with an empty `items` sequence the invocation immediately resolves with the
empty aggregate `{data: [], totalBatches: 0, completedBatches: 0, errors: []}`, the
progress values set during the invocation are just the initial reset `0`, and the
per-batch operation is never invoked: no batch is ever settled, and the outcome is the
same for every operation. -/
theorem mutateBatch_empty_items {TV TD E : Type}
    (op op' : Nat → List TV → BatchOutcome TD E) (batchSize : Nat) :
    mutateBatchAsync op batchSize ([] : List TV)
      = .ok { data := [], totalBatches := 0, completedBatches := 0, errors := [] } ∧
    settleBatches op (chunkArray ([] : List TV) batchSize) = [] ∧
    mutateBatchAsync op batchSize ([] : List TV) = mutateBatchAsync op' batchSize [] ∧
    progressTrace 0 = [0] := by
  refine ⟨?_, ?_, ?_, rfl⟩
  · rw [mutateBatchAsync, if_pos (by rw [chunkArray_nil]; rfl)]
  · rw [chunkArray_nil]; rfl
  · rw [mutateBatchAsync, mutateBatchAsync,
      if_pos (by rw [chunkArray_nil]; rfl), if_pos (by rw [chunkArray_nil]; rfl)]

/-- C8: the cache key of a batch is exactly the base key followed by the literal
`"batch"`, the batch index and the batch contents, and two batches receive identical
keys if and only if they agree on base key, batch index and (value-equal) batch
contents. -/
theorem batchKey_spec {TV : Type} (b1 b2 : List (KeyAtom TV)) (i1 i2 : Nat)
    (c1 c2 : List TV) :
    batchKey b1 i1 c1 = b1 ++ [KeyAtom.str "batch", KeyAtom.num i1, KeyAtom.items c1] ∧
    (batchKey b1 i1 c1 = batchKey b2 i2 c2 ↔ b1 = b2 ∧ i1 = i2 ∧ c1 = c2) := by
  refine ⟨rfl, ?_, ?_⟩
  · intro h
    rw [batchKey, batchKey] at h
    obtain ⟨hb, hrest⟩ := List.append_inj' h rfl
    simp at hrest
    exact ⟨hb, hrest.1, hrest.2⟩
  · rintro ⟨rfl, rfl, rfl⟩
    rfl

/-- Invariants of every result the imperative orchestrator resolves with:
`len(data) = completedBatches`, `len(data) + len(errors) = totalBatches`, and
`completedBatches ≤ totalBatches`. -/
theorem resolved_invariants {TV TD E : Type} (op : Nat → List TV → BatchOutcome TD E)
    (batchSize : Nat) (items : List TV) (r : BatchMutationResult TD E)
    (h : mutateBatchAsync op batchSize items = .ok r) :
    r.data.length = r.completedBatches ∧
    r.data.length + r.errors.length = r.totalBatches ∧
    r.completedBatches ≤ r.totalBatches := by
  rcases mutateBatchAsync_ok_inv op batchSize items r h with ⟨_, rfl⟩ | ⟨_, rfl⟩
  · exact ⟨rfl, rfl, le_refl 0⟩
  · refine ⟨(countSuccess_eq_length _).symm, ?_, ?_⟩
    · rw [successes_add_errors (settleBatches op (chunkArray items batchSize)),
        settleBatches, settleFrom_length]
    · rw [countSuccess_eq_length]
      calc (successfulResults (settleBatches op (chunkArray items batchSize))).length
          ≤ (settleBatches op (chunkArray items batchSize)).length := by
            have := successes_add_errors (settleBatches op (chunkArray items batchSize))
            omega
        _ = (chunkArray items batchSize).length := by rw [settleBatches, settleFrom_length]

/-- C2, counterexample: in the scenario with 3 batches where exactly the batch at
index 1 fails and the others succeed, `mutateBatchAsync` resolves with
`data.length = 2` and `errors.length = 1` as claimed, but `completedBatches = 2`, not
`3`: the code computes `completedBatches` as `results.filter((r) => r.success).length`,
the number of *successful* batches (matching its doc comment «Количество успешно
завершённых батчей»), so `len(data) + len(errors) = 3 ≠ 2 = completedBatches`. -/
theorem mutateBatch_partial_failure_counterexample :
    mutateBatchAsync opOneFails 1 [10, 20, 30]
      = .ok { data := [0, 2], totalBatches := 3, completedBatches := 2,
              errors := ["batch 1 failed"] } ∧
    (2 : Nat) ≠ 3 := ⟨rfl, by norm_num⟩

/-- C2, amended: in the 3-batch scenario with exactly batch index 1 failing, the
invocation resolves with `data.length = 2`, `errors.length = 1`, `totalBatches = 3` and
`completedBatches = 2`; in general, once all batches have settled, the resolved result
satisfies `len(data) = completedBatches`, `len(data) + len(errors) = totalBatches`
(hence `len(data) + len(errors) = completedBatches` only when `errors` is empty) and
`completedBatches ≤ totalBatches`. -/
theorem mutateBatch_partial_failure_amended :
    (mutateBatchAsync opOneFails 1 [10, 20, 30]
      = .ok { data := [0, 2], totalBatches := 3, completedBatches := 2,
              errors := ["batch 1 failed"] }) ∧
    (∀ {TV TD E : Type} (op : Nat → List TV → BatchOutcome TD E) (batchSize : Nat)
        (items : List TV) (r : BatchMutationResult TD E),
      mutateBatchAsync op batchSize items = .ok r →
      r.data.length = r.completedBatches ∧
      r.data.length + r.errors.length = r.totalBatches ∧
      r.completedBatches ≤ r.totalBatches) :=
  ⟨rfl, fun op batchSize items r h => resolved_invariants op batchSize items r h⟩

/-- Witness for C2's amended invariant at the concrete partial-failure scenario. -/
theorem mutateBatch_partial_failure_amended_witness :
    ([0, 2] : List Nat).length = 2 ∧
    ([0, 2] : List Nat).length + (["batch 1 failed"] : List String).length = 3 ∧
    (2 : Nat) ≤ 3 :=
  mutateBatch_partial_failure_amended.2 opOneFails 1 [10, 20, 30]
    { data := [0, 2], totalBatches := 3, completedBatches := 2,
      errors := ["batch 1 failed"] } rfl

/-- C3: for an invocation with at least one batch — if every batch's operation fails
(no successes), the invocation rejects with the error of the failed batch with the
lowest batch index (batch 0: `errors[0]`, where `errors` follows the index-ordered
`Promise.all` results); if at least one batch succeeds, it resolves with the partial
data and the error list instead of rejecting, and the error list is non-empty whenever
some batch failed. -/
theorem mutateBatch_failure_policy {TV TD E : Type} (op : Nat → List TV → BatchOutcome TD E)
    (batchSize : Nat) (items : List TV)
    (hne : chunkArray items batchSize ≠ []) :
    (successfulResults (settleBatches op (chunkArray items batchSize)) = [] →
      ∀ b bs, chunkArray items batchSize = b :: bs →
      ∀ e, op 0 b = .err e →
      mutateBatchAsync op batchSize items = .error e) ∧
    (successfulResults (settleBatches op (chunkArray items batchSize)) ≠ [] →
      mutateBatchAsync op batchSize items
        = .ok { data := successfulResults (settleBatches op (chunkArray items batchSize)),
                totalBatches := (chunkArray items batchSize).length,
                completedBatches := countSuccess (settleBatches op (chunkArray items batchSize)),
                errors := batchErrors (settleBatches op (chunkArray items batchSize)) }) ∧
    (∀ j, j < (chunkArray items batchSize).length →
      ∀ e, op j ((chunkArray items batchSize).getD j []) = .err e →
      batchErrors (settleBatches op (chunkArray items batchSize)) ≠ []) := by
  have hbne : ¬ ((chunkArray items batchSize).isEmpty = true) := by
    intro habs
    exact hne (List.isEmpty_iff.mp habs)
  refine ⟨?_, ?_, ?_⟩
  case refine_3 =>
    intro j hj e hop habs
    have hmem : e ∈ batchErrors (settleBatches op (chunkArray items batchSize)) := by
      rw [batchErrors_by_index]
      exact List.mem_filterMap.mpr ⟨j, List.mem_range.mpr hj, by rw [hop]⟩
    rw [habs] at hmem
    exact absurd hmem (List.not_mem_nil e)
  · intro hsucc b bs hbb e hop
    have hset : settleBatches op (chunkArray items batchSize)
        = Settled.failure e 0 :: settleFrom op 1 bs := by
      rw [settleBatches, hbb, settleFrom, settleOne, hop]
    have herr : batchErrors (settleBatches op (chunkArray items batchSize))
        = e :: batchErrors (settleFrom op 1 bs) := by
      rw [hset, batchErrors, List.filterMap_cons]
      rfl
    have hcond : (successfulResults (settleBatches op (chunkArray items batchSize))).length = 0
        ∧ 0 < (batchErrors (settleBatches op (chunkArray items batchSize))).length :=
      ⟨by rw [hsucc]; rfl, by rw [herr]; simp⟩
    rw [mutateBatchAsync, if_neg hbne, dif_pos hcond]
    congr 1
    rw [List.get_of_eq herr]
    rfl
  · intro hsucc
    rw [mutateBatchAsync, if_neg hbne, dif_neg]
    intro hc
    exact hsucc (List.eq_nil_of_length_eq_zero hc.1)

/-- Witness for C3 at 2 batches that both fail: the invocation rejects with the error
of batch index 0. -/
theorem mutateBatch_failure_policy_witness :
    mutateBatchAsync opAllFail 1 [7, 8] = .error 0 :=
  (mutateBatch_failure_policy opAllFail 1 [7, 8] (by decide)).1 (by decide)
    [7] [[8]] (by decide) 0 rfl

/-- C10, counterexample: in the cached orchestrator's live aggregated view,
`completedBatches = len(data)` fails.  The `forEach` loop pushes a successful datum into
`data` only under the truthiness guard `query.isSuccess && query.data`
(`src/unnamed/part_002` line 303), while `completedBatches` is
`queries.filter((q) => q.isSuccess).length` (line 319) with no such guard: with
`TData = number` and a single batch whose query succeeded with the falsy datum `0`, the
view has `completedBatches = 1` but `data = []`, so `completedBatches ≠ len(data)`. -/
theorem completedBatches_cached_counterexample :
    (aggQueryData jsNumTruthy
        ([QueryState.success 0] : List (QueryState Nat String))).completedBatches = 1 ∧
    (aggQueryData jsNumTruthy
        ([QueryState.success 0] : List (QueryState Nat String))).data = [] ∧
    (1 : Nat) ≠ 0 := ⟨rfl, rfl, by norm_num⟩

/-- C10, amended: `completedBatches` counts exactly the successful batches in both
variants (failed or pending batches are never included).  In every aggregated result
the imperative orchestrator resolves with, `completedBatches = len(data)` and (once all
batches have settled) `completedBatches + len(errors) = totalBatches`.  In the cached
orchestrator's live aggregated view, `len(data) ≤ completedBatches`, with
`completedBatches = len(data)` exactly when every successful batch's datum is truthy:
the `forEach` guard `query.isSuccess && query.data` skips falsy data that the
`filter(isSuccess)`-based `completedBatches` still counts. -/
theorem completedBatches_counts_successes_amended {TV TD E : Type} :
    (∀ (op : Nat → List TV → BatchOutcome TD E) (batchSize : Nat) (items : List TV)
        (r : BatchMutationResult TD E),
      mutateBatchAsync op batchSize items = .ok r →
      r.completedBatches = r.data.length ∧
      r.completedBatches + r.errors.length = r.totalBatches) ∧
    (∀ (truthy : TD → Bool) (queries : List (QueryState TD E)),
      (aggQueryData truthy queries).completedBatches = (queries.filter qIsSuccess).length ∧
      (aggQueryData truthy queries).data.length
        ≤ (aggQueryData truthy queries).completedBatches ∧
      ((aggQueryData truthy queries).completedBatches
          = (aggQueryData truthy queries).data.length ↔
        ∀ d, QueryState.success d ∈ queries → truthy d = true)) := by
  constructor
  · intro op batchSize items r h
    have hinv := resolved_invariants op batchSize items r h
    exact ⟨hinv.1.symm, by omega⟩
  · intro truthy queries
    exact ⟨rfl, guarded_data_length_le truthy queries,
      success_count_eq_guarded_iff truthy queries⟩

/-- Witness for C10's amended claim at the concrete partial-failure scenario and a
concrete mixed query-state list containing a falsy successful datum. -/
theorem completedBatches_counts_successes_amended_witness :
    ((2 : Nat) = ([0, 2] : List Nat).length ∧
      (2 : Nat) + (["batch 1 failed"] : List String).length = 3) ∧
    ((aggQueryData jsNumTruthy ([QueryState.success 5, QueryState.success 0,
          QueryState.failure "e", QueryState.pending] :
        List (QueryState Nat String))).completedBatches
      = (([QueryState.success 5, QueryState.success 0, QueryState.failure "e",
          QueryState.pending] : List (QueryState Nat String)).filter qIsSuccess).length ∧
    (aggQueryData jsNumTruthy ([QueryState.success 5, QueryState.success 0,
          QueryState.failure "e", QueryState.pending] :
        List (QueryState Nat String))).data.length
      ≤ (aggQueryData jsNumTruthy ([QueryState.success 5, QueryState.success 0,
          QueryState.failure "e", QueryState.pending] :
        List (QueryState Nat String))).completedBatches ∧
    ((aggQueryData jsNumTruthy ([QueryState.success 5, QueryState.success 0,
          QueryState.failure "e", QueryState.pending] :
        List (QueryState Nat String))).completedBatches
        = (aggQueryData jsNumTruthy ([QueryState.success 5, QueryState.success 0,
          QueryState.failure "e", QueryState.pending] :
        List (QueryState Nat String))).data.length ↔
      ∀ d, QueryState.success d ∈ ([QueryState.success 5, QueryState.success 0,
          QueryState.failure "e", QueryState.pending] : List (QueryState Nat String)) →
        jsNumTruthy d = true)) :=
  ⟨(@completedBatches_counts_successes_amended Nat Nat String).1 opOneFails 1 [10, 20, 30]
      { data := [0, 2], totalBatches := 3, completedBatches := 2,
        errors := ["batch 1 failed"] } rfl,
   (@completedBatches_counts_successes_amended Nat Nat String).2 jsNumTruthy
      [QueryState.success 5, QueryState.success 0, QueryState.failure "e",
        QueryState.pending]⟩

/-- C4, counterexample: progress can reach 100 before every batch has settled.  With
201 batches, after 200 settlements the progress value is
`Math.round((200/201)*100) = round(99.502...) = 100` although `completedCount = 200 <
201 = totalBatches`, contradicting the claim that progress equals 100 exactly when
`completedBatches == totalBatches`.  (`getD 200` reads the trace entry recorded at the
200-th settlement.) -/
theorem progress_hits_100_early_counterexample :
    jsRound100 200 201 = 100 ∧ (200 : Nat) < 201 ∧ (progressTrace 201).getD 200 0 = 100 := by
  refine ⟨by decide, by norm_num, by decide⟩

/-- C4, amended: within one invocation with `n = totalBatches` batches, progress is the
integer `round(100·k/n)` after the `k`-th settlement — an integer in `[0, 100]`,
recomputed at every settlement (the trace has `n + 1` entries: the reset plus one per
settlement), non-decreasing over the invocation's lifetime, `0` when `totalBatches = 0`,
and `100` upon completion (`k = n`); however it equals 100 exactly when
`199·totalBatches ≤ 200·completedBatches`, which holds at completion but also — when
`totalBatches ≥ 200` — already at the penultimate settlement, not exactly when
`completedBatches = totalBatches` as claimed. -/
theorem progress_props_amended (n k : Nat) (hn : 0 < n) (hk : k ≤ n) :
    jsRound100 k n ≤ 100 ∧
    (∀ k', k' ≤ k → jsRound100 k' n ≤ jsRound100 k n) ∧
    (jsRound100 k n = 100 ↔ 199 * n ≤ 200 * k) ∧
    jsRound100 n n = 100 ∧
    (progressTrace n).length = n + 1 ∧
    List.Sorted (· ≤ ·) (progressTrace n) ∧
    (∀ p ∈ progressTrace n, p ≤ 100) ∧
    progressTrace 0 = [0] := by
  refine ⟨jsRound100_le_100 k n hn hk, fun k' hk' => jsRound100_mono k k' n hk',
    jsRound100_eq_100_iff k n hn hk,
    (jsRound100_eq_100_iff n n hn (le_refl n)).mpr (by omega),
    by simp [progressTrace], ?_, ?_, rfl⟩
  · rw [progressTrace, List.sorted_cons]
    constructor
    · intro b _
      exact Nat.zero_le b
    · exact List.Pairwise.map _ (fun a b hab => jsRound100_mono (b + 1) (a + 1) n (by omega))
        (List.pairwise_lt_range n)
  · intro p hp
    rcases List.mem_cons.mp hp with hp | hp
    · omega
    · obtain ⟨j, hj, rfl⟩ := List.mem_map.mp hp
      exact jsRound100_le_100 (j + 1) n hn (by simpa using List.mem_range.mp hj)

/-- Witness for C4's amended claim at `n = 3`, `k = 2`. -/
theorem progress_props_amended_witness :
    jsRound100 2 3 ≤ 100 ∧
    (∀ k', k' ≤ 2 → jsRound100 k' 3 ≤ jsRound100 2 3) ∧
    (jsRound100 2 3 = 100 ↔ 199 * 3 ≤ 200 * 2) ∧
    jsRound100 3 3 = 100 ∧
    (progressTrace 3).length = 3 + 1 ∧
    List.Sorted (· ≤ ·) (progressTrace 3) ∧
    (∀ p ∈ progressTrace 3, p ≤ 100) ∧
    progressTrace 0 = [0] :=
  progress_props_amended 3 2 (by norm_num) (by norm_num)

/-- C7: regardless of the wall-clock order in which the per-batch promises settle, the
data the invocation resolves with lists the successes in batch-index order and the
errors likewise (`Promise.all` returns the settlement records in promise order, which is
batch-index order, and the aggregation loop consumes that array in order), and the
resolved result is fully determined by the per-batch outcomes: any operation assigning
the same outcome to every batch index resolves to the same result. -/
theorem mutateBatch_index_order {TV TD E : Type} (op : Nat → List TV → BatchOutcome TD E)
    (batchSize : Nat) (items : List TV) (r : BatchMutationResult TD E)
    (h : mutateBatchAsync op batchSize items = .ok r) :
    r.data = ((List.range (chunkArray items batchSize).length).filterMap fun j =>
        match op j ((chunkArray items batchSize).getD j []) with
        | BatchOutcome.ok d => some d
        | BatchOutcome.err _ => none) ∧
    r.errors = ((List.range (chunkArray items batchSize).length).filterMap fun j =>
        match op j ((chunkArray items batchSize).getD j []) with
        | BatchOutcome.ok _ => none
        | BatchOutcome.err e => some e) ∧
    (∀ op' : Nat → List TV → BatchOutcome TD E,
      (∀ j, j < (chunkArray items batchSize).length →
        op' j ((chunkArray items batchSize).getD j [])
          = op j ((chunkArray items batchSize).getD j [])) →
      mutateBatchAsync op' batchSize items = .ok r) := by
  refine ⟨?_, ?_, ?_⟩
  · rcases mutateBatchAsync_ok_inv op batchSize items r h with ⟨hnil, rfl⟩ | ⟨_, rfl⟩
    · rw [hnil]
      rfl
    · exact successfulResults_by_index op (chunkArray items batchSize)
  · rcases mutateBatchAsync_ok_inv op batchSize items r h with ⟨hnil, rfl⟩ | ⟨_, rfl⟩
    · rw [hnil]
      rfl
    · exact batchErrors_by_index op (chunkArray items batchSize)
  · intro op' hagree
    have hset : settleBatches op' (chunkArray items batchSize)
        = settleBatches op (chunkArray items batchSize) :=
      settleFrom_congr op op' (chunkArray items batchSize) 0
        (fun j hj => by simpa using hagree j hj)
    rw [← h, mutateBatchAsync, mutateBatchAsync]
    by_cases hb : (chunkArray items batchSize).isEmpty
    · rw [if_pos hb, if_pos hb]
    · rw [if_neg hb, if_neg hb]
      by_cases hc : (successfulResults (settleBatches op (chunkArray items batchSize))).length = 0
          ∧ 0 < (batchErrors (settleBatches op (chunkArray items batchSize))).length
      · have hc' : (successfulResults (settleBatches op' (chunkArray items batchSize))).length = 0
            ∧ 0 < (batchErrors (settleBatches op' (chunkArray items batchSize))).length := by
          rw [hset]
          exact hc
        rw [dif_pos hc', dif_pos hc]
        congr 1
        exact List.get_of_eq (by rw [hset]) _
      · have hc' : ¬ ((successfulResults (settleBatches op' (chunkArray items batchSize))).length = 0
            ∧ 0 < (batchErrors (settleBatches op' (chunkArray items batchSize))).length) := by
          rw [hset]
          exact hc
        rw [dif_neg hc', dif_neg hc, hset]

/-- Witness for C7 at the concrete partial-failure scenario. -/
theorem mutateBatch_index_order_witness :
    ([0, 2] : List Nat)
      = ((List.range (chunkArray ([10, 20, 30] : List Nat) 1).length).filterMap fun j =>
          match opOneFails j ((chunkArray ([10, 20, 30] : List Nat) 1).getD j []) with
          | BatchOutcome.ok d => some d
          | BatchOutcome.err _ => none) ∧
    (["batch 1 failed"] : List String)
      = ((List.range (chunkArray ([10, 20, 30] : List Nat) 1).length).filterMap fun j =>
          match opOneFails j ((chunkArray ([10, 20, 30] : List Nat) 1).getD j []) with
          | BatchOutcome.ok _ => none
          | BatchOutcome.err e => some e) ∧
    (∀ op' : Nat → List Nat → BatchOutcome Nat String,
      (∀ j, j < (chunkArray ([10, 20, 30] : List Nat) 1).length →
        op' j ((chunkArray ([10, 20, 30] : List Nat) 1).getD j [])
          = opOneFails j ((chunkArray ([10, 20, 30] : List Nat) 1).getD j [])) →
      mutateBatchAsync op' 1 [10, 20, 30]
        = .ok { data := [0, 2], totalBatches := 3, completedBatches := 2,
                errors := ["batch 1 failed"] }) :=
  mutateBatch_index_order opOneFails 1 [10, 20, 30]
    { data := [0, 2], totalBatches := 3, completedBatches := 2,
      errors := ["batch 1 failed"] } rfl

/-- C9: in the cached orchestrator's aggregated view, the overall success flag is true
if and only if every current batch's query is in a success state (a single pending or
failed batch keeps it false), and the surfaced top-level error is the error of the first
batch (by index) whose query is in an error state — surfaced even when other batches are
still pending or succeeding. -/
theorem batchQuery_success_and_error {TD E : Type} (queries : List (QueryState TD E)) :
    (aggIsSuccess queries = true ↔ ∀ q ∈ queries, qIsSuccess q = true) ∧
    (∀ i (h : i < queries.length) (e : E),
      queries.get ⟨i, h⟩ = QueryState.failure e →
      (∀ j (hj : j < queries.length), j < i → qIsError (queries.get ⟨j, hj⟩) = false) →
      aggError queries = some e) :=
  ⟨List.all_eq_true, fun i h e hget hfirst => aggError_first queries i h e hget hfirst⟩

/-- Witness for C9: a mix of one successful, one pending and two failed queries — the
overall success flag is false and the error surfaced is the first failure's, even with a
pending sibling. -/
theorem batchQuery_success_and_error_witness :
    aggError ([QueryState.success 5, QueryState.pending, QueryState.failure "e1",
        QueryState.failure "e2"] : List (QueryState Nat String)) = some "e1" :=
  (batchQuery_success_and_error [QueryState.success 5, QueryState.pending,
      QueryState.failure "e1", QueryState.failure "e2"]).2 2 (by decide) "e1" rfl
    (fun j hj hji => by interval_cases j <;> rfl)

end BatchCore
